import Mathlib

/-!
Verification of the token-resolution engine in `tokens.py`.

The Python functions are shallowly embedded as executable Lean
definitions over an explicit JSON value type.  String processing is
modelled on `List Char`; Python dictionaries are modelled as ordered
association lists with overwrite-on-insert, which preserves both the
key set and the last-write-wins behaviour of the source.  All
embeddings are ASCII-faithful: Unicode-only divergences of Python
`str.lower` and the `\s` regex class do not affect any input
exercised here.
-/

/-! ## Character classes (Python regex classes and `str` predicates) -/

/-- The characters matched by the regex class `[a-zA-Z0-9]`. -/
def asciiAlnum (c : Char) : Bool :=
  c ∈ "abcdefghijklmnopqrstuvwxyzABCDEFGHIJKLMNOPQRSTUVWXYZ0123456789".toList

/-- ASCII whitespace as matched by the regex class `\s`. -/
def pySpace (c : Char) : Bool :=
  c ∈ " \t\n\r\x0b\x0c".toList

/-- ASCII decimal digits, as accepted by Python `str.isdigit`. -/
def pyDigit (c : Char) : Bool :=
  c ∈ "0123456789".toList

/-- ASCII lowercasing, the fragment of Python `str.lower` relevant here. -/
def pyLowerChar (c : Char) : Char :=
  match c with
  | 'A' => 'a' | 'B' => 'b' | 'C' => 'c' | 'D' => 'd' | 'E' => 'e'
  | 'F' => 'f' | 'G' => 'g' | 'H' => 'h' | 'I' => 'i' | 'J' => 'j'
  | 'K' => 'k' | 'L' => 'l' | 'M' => 'm' | 'N' => 'n' | 'O' => 'o'
  | 'P' => 'p' | 'Q' => 'q' | 'R' => 'r' | 'S' => 's' | 'T' => 't'
  | 'U' => 'u' | 'V' => 'v' | 'W' => 'w' | 'X' => 'x' | 'Y' => 'y'
  | 'Z' => 'z' | other => other

/-- Python `s.lower()` on a whole string (ASCII fragment). -/
def pyLower (s : String) : String :=
  String.mk (s.toList.map pyLowerChar)

/-- Python `needle in hay` substring test, on character lists. -/
def containsSub (hay needle : List Char) : Bool :=
  needle.isPrefixOf hay ||
    match hay with
    | [] => false
    | _ :: t => containsSub t needle

/-- Python `needle in hay` substring test on strings. -/
def containsStr (hay needle : String) : Bool :=
  containsSub hay.toList needle.toList

/-- Python `s.split(sep)` for a one-character separator. -/
def splitOnChar (sep : Char) : List Char → List (List Char)
  | [] => [[]]
  | c :: rest =>
    match splitOnChar sep rest with
    | [] => [[c]]
    | h :: t => if c = sep then [] :: h :: t else (c :: h) :: t

/-- Python `sep.join(parts)`. -/
def joinSep (sep : String) : List String → String
  | [] => ""
  | [x] => x
  | x :: xs => x ++ sep ++ joinSep sep xs

/-- Python `s.strip()` (ASCII whitespace) on a character list. -/
def pyStrip (l : List Char) : List Char :=
  ((l.dropWhile pySpace).reverse.dropWhile pySpace).reverse

/-- Python `s.strip(given char)` on a character list. -/
def pyStripChar (u : Char) (l : List Char) : List Char :=
  ((l.dropWhile (· == u)).reverse.dropWhile (· == u)).reverse

/-- Python `s.isdigit()`: nonempty and all digits. -/
def pyIsDigitStr (s : String) : Bool :=
  !(s == "") && s.toList.all pyDigit

/-- Python `s[1:-1]`. -/
def sliceInner (s : String) : String :=
  String.mk ((s.toList.drop 1).dropLast)

/-! ## The regex substitutions used by `tokens.py` -/

/-- After an opening parenthesis: skip to just past the first `)`
(the regex fragment consuming the remainder of a parenthesized group). -/
def parenSkip : List Char → Option (List Char)
  | [] => none
  | c :: cs => if c = ')' then some cs else parenSkip cs

/-- Try to match the regex fragment at the head of the list: optional
whitespace, an opening parenthesis, any non-parenthesis text, and a
closing parenthesis.  Returns the remainder after the match. -/
def parenHeadMatch (l : List Char) : Option (List Char) :=
  match l.dropWhile pySpace with
  | [] => none
  | c :: rest => if c = '(' then parenSkip rest else none

/-- Fuelled scanner realising one `re.sub(pat, repl-by-empty, s)` pass:
at each position try the head matcher; on a match drop the matched
region and continue after it, otherwise keep the character and move on.
Each successful match consumes at least two characters, so fuel equal
to the length of the list is always sufficient. -/
def scanRemove (headMatch : List Char → Option (List Char)) :
    Nat → List Char → List Char
  | 0, _ => []
  | fuel + 1, l =>
    match headMatch l with
    | some rest => scanRemove headMatch fuel rest
    | none =>
      match l with
      | [] => []
      | c :: cs => c :: scanRemove headMatch fuel cs

/-- The substitution eliminating parenthesized suffixes from a path
segment in `format_xml_name` (tokens.py line 51). -/
def stripParens (l : List Char) : List Char :=
  scanRemove parenHeadMatch l.length l

/-- Head matcher for removing a fixed annotation such as
a literal light-mode or dark-mode marker preceded by whitespace. -/
def annotHeadMatch (annot : List Char) (l : List Char) : Option (List Char) :=
  let rest := l.dropWhile pySpace
  if annot.isPrefixOf rest then some (rest.drop annot.length) else none

/-- The substitution removing a fixed parenthesized mode annotation
(tokens.py lines 340-341 and 394-395). -/
def removeAnnot (annot : String) (s : String) : String :=
  String.mk (scanRemove (annotHeadMatch annot.toList) s.toList.length s.toList)

/-- The substitution replacing every character outside `[a-zA-Z0-9]`
with an underscore (tokens.py line 53). -/
def underscoreClean (c : Char) : Char :=
  if asciiAlnum c then c else '_'

/-- The substitution collapsing runs of underscores into one
(tokens.py line 55). -/
def collapseUnd : List Char → List Char
  | [] => []
  | [c] => [c]
  | a :: b :: rest =>
    if a = '_' && b = '_' then collapseUnd (b :: rest)
    else a :: collapseUnd (b :: rest)

/-! ## JSON values and Python dictionaries -/

/-- The JSON value model consumed by the engine.  Objects are ordered
field lists, matching Python dict iteration order. -/
inductive JVal where
  | str (s : String)
  | num (n : Int)
  | arr (xs : List JVal)
  | obj (fields : List (String × JVal))

/-- Python `d[k] = v` on an ordered dictionary: overwrite in place if
the key exists, otherwise append. -/
def dinsert {β : Type} (m : List (String × β)) (k : String) (v : β) :
    List (String × β) :=
  if (List.lookup k m).isSome then
    m.map (fun p => if p.1 = k then (k, v) else p)
  else m ++ [(k, v)]

/-- Python `k in d` on a dictionary. -/
def dcontains {β : Type} (m : List (String × β)) (k : String) : Bool :=
  (List.lookup k m).isSome

/-- Python `{}.update(a); .update(b)`: the merged dictionary built in
`main` (tokens.py lines 571-573). -/
def mergeMaps (a b : List (String × String)) : List (String × String) :=
  (a ++ b).foldl (fun m p => dinsert m p.1 p.2) []

/-! ## tokens.py: node classification (lines 18-35, 175-177, 597-599) -/

/-- Embeds `is_color_node`: the node has `type == "color"` and a `value` field. -/
def is_color_node (fields : List (String × JVal)) : Bool :=
  (match List.lookup "type" fields with
   | some (JVal.str t) => t == "color"
   | _ => false)
  && (List.lookup "value" fields).isSome

/-- Embeds `is_dimension_node`: the node has `type == "dimension"` and a `value` field. -/
def is_dimension_node (fields : List (String × JVal)) : Bool :=
  (match List.lookup "type" fields with
   | some (JVal.str t) => t == "dimension"
   | _ => false)
  && (List.lookup "value" fields).isSome

/-- Embeds `is_gradient_node`: the node has `type == "custom-gradient"` and a `value` field. -/
def is_gradient_node (fields : List (String × JVal)) : Bool :=
  (match List.lookup "type" fields with
   | some (JVal.str t) => t == "custom-gradient"
   | _ => false)
  && (List.lookup "value" fields).isSome

/-- Embeds `should_include_in_light` (tokens.py lines 28-30), kept exactly as
written in the source: the test is a tautology. -/
def should_include_in_light (node_name : String) : Bool :=
  containsStr (pyLower node_name) "light mode" ||
    !(containsStr (pyLower node_name) "light mode")

/-- Embeds `should_include_in_dark` (tokens.py lines 33-35). -/
def should_include_in_dark (node_name : String) : Bool :=
  containsStr (pyLower node_name) "dark mode" ||
    !(containsStr (pyLower node_name) "light mode")

/-- Embeds `extract_color_value` (tokens.py lines 38-42): a value of length 9
is truncated to its first seven characters, anything else is returned
unchanged. -/
def extract_color_value (value : String) : String :=
  if value.toList.length = 9 then String.mk (value.toList.take 7) else value

/-! ## tokens.py: `format_xml_name` (lines 45-84) -/

/-- The per-segment cleaning pipeline of `format_xml_name` (lines
50-59): drop parenthesized suffixes, replace every other special
character by an underscore, collapse runs of underscores, strip
underscores at both ends, and lowercase. -/
def cleanSeg (s : String) : String :=
  String.mk
    ((pyStripChar '_'
        (collapseUnd ((stripParens s.toList).map underscoreClean))).map
      pyLowerChar)

/-- The cleaned, nonempty path segments (`cleaned_parts` of lines 48-59). -/
def cleanedParts (name_parts : List String) : List String :=
  (name_parts.map cleanSeg).filter (fun s => !(s == ""))

/-- Embeds `format_xml_name`: clean the segments, strip leading
`colors` / `base` / `component` (and once more `colors`) prefixes, then
keep the numeric leaf together with its parent, or just the leaf. -/
def format_xml_name (name_parts : List String) : String :=
  let cp0 := cleanedParts name_parts
  let cp1 := if cp0.head? == some "colors" then cp0.tail else cp0
  let cp2 := if cp1.head? == some "base" then cp1.tail else cp1
  let cp3 := if cp2.head? == some "component" then cp2.tail else cp2
  let cp := if cp3.length > 1 && (cp3.head? == some "colors") then cp3.tail else cp3
  match cp.reverse with
  | last :: parent :: _ =>
    if pyIsDigitStr last then parent ++ "_" ++ last else last
  | _ => joinSep "_" cp

/-- The lowercase space-joined path text used for mode inference
(`' '.join(current_path).lower()`, tokens.py lines 194 and 471). -/
def pathStr (path : List String) : String :=
  pyLower (joinSep " " path)

/-! ## tokens.py: primitive color pass (lines 180-215) -/

/-- How one color node is written into the light and/or dark bucket
(the body of the color branch in `traverse_primitive_colors`, lines
190-212): the gray special case and the two inclusion predicates are
kept exactly as in the source. -/
def primColorWrite (raw : String) (current_path : List String)
    (light_colors dark_colors : List (String × String)) :
    List (String × String) × List (String × String) :=
  let color_value := extract_color_value raw
  let xml_name := format_xml_name current_path
  let path_str := pathStr current_path
  if containsStr path_str "gray" then
    if containsStr path_str "light mode" then
      (dinsert light_colors xml_name color_value, dark_colors)
    else if containsStr path_str "dark mode" then
      (light_colors, dinsert dark_colors xml_name color_value)
    else
      (dinsert light_colors xml_name color_value,
       dinsert dark_colors xml_name color_value)
  else
    (if should_include_in_light path_str then
       dinsert light_colors xml_name color_value
     else light_colors,
     if should_include_in_dark path_str then
       dinsert dark_colors xml_name color_value
     else dark_colors)

mutual

/-- Embeds `traverse_primitive_colors`: depth-first walk of the primitives
subtree, writing each color token into the light and/or dark bucket.
(A color node whose `value` field is not a string is not representable
in the string-valued buckets; the Python code would store a non-string
or raise, and no claim exercises that corner.) -/
def traverse_primitive_colors :
    List (String × JVal) → List String →
    List (String × String) → List (String × String) →
    List (String × String) × List (String × String)
  | [], _, light_colors, dark_colors => (light_colors, dark_colors)
  | (key, value) :: rest, path, light_colors, dark_colors =>
    let step := primColorEntry key value path light_colors dark_colors
    traverse_primitive_colors rest path step.1 step.2

/-- The loop body of `traverse_primitive_colors` for a single
key/value pair: a color node is written, any other object is recursed
into, and non-object values are skipped by the `isinstance` guard. -/
def primColorEntry (key : String) (value : JVal) (path : List String)
    (light_colors dark_colors : List (String × String)) :
    List (String × String) × List (String × String) :=
  match value with
  | JVal.obj fields =>
    if is_color_node fields then
      match List.lookup "value" fields with
      | some (JVal.str raw) =>
        primColorWrite raw (path ++ [key]) light_colors dark_colors
      | _ => (light_colors, dark_colors)
    else
      traverse_primitive_colors fields (path ++ [key]) light_colors dark_colors
  | _ => (light_colors, dark_colors)

end

/-! ## tokens.py: reference resolution (lines 366-446) -/

/-- The digit-scan fallback loop at the end of
`resolve_primitives_reference` (lines 431-435): the first purely
numeric part paired with the second-to-last part that yields a known
key wins. -/
def fallbackScan (pmap : List (String × String)) (penult : String)
    (hasMany : Bool) : List String → Option String
  | [] => none
  | p :: rest =>
    if pyIsDigitStr p && hasMany then
      let color_name := penult ++ "_" ++ p
      if dcontains pmap color_name then some color_name
      else fallbackScan pmap penult hasMany rest
    else fallbackScan pmap penult hasMany rest

/-- Embeds `resolve_primitives_reference` (lines 391-438): strip mode
annotations, split on dots, drop the `primitives`/`colors`/`base`
segments while turning inner spaces into underscores, then try the
match strategies in source order. -/
def resolve_primitives_reference (reference : String)
    (primitive_color_map : List (String × String)) : Option String :=
  let r := removeAnnot "(dark mode)" (removeAnnot "(light mode)" reference)
  let path_parts := (splitOnChar '.' r.toList).map String.mk
  let filtered_parts := path_parts.filterMap (fun part =>
    if part == "primitives" || part == "colors" || part == "base" then none
    else
      let q := String.mk (part.toList.map (fun c => if c = ' ' then '_' else c))
      if q == "" then none else some q)
  let penult := (filtered_parts.reverse.drop 1).headD ""
  let fallback := fallbackScan primitive_color_map penult
    (decide (filtered_parts.length > 1)) filtered_parts
  match filtered_parts.reverse with
  | last :: prev :: restR =>
    let s1 := prev ++ "_" ++ last
    if dcontains primitive_color_map s1 then some s1
    else
      match restR with
      | third :: _ =>
        let s2 := third ++ "_" ++ prev ++ "_" ++ last
        if dcontains primitive_color_map s2 then some s2
        else
          let s3 := third ++ prev ++ "_" ++ last
          if dcontains primitive_color_map s3 then some s3
          else fallback
      | [] => fallback
  | _ => fallback

/-- Embeds `resolve_color_reference_to_name` (lines 366-388): strip one layer
of braces, return nothing for direct hex values and for references
into the color-modes subtree, and otherwise resolve as a primitives
reference. -/
def resolve_color_reference_to_name (reference : String)
    (primitive_color_map : List (String × String)) : Option String :=
  let r :=
    if reference.toList.head? == some '\x7b'
        && reference.toList.getLast? == some '\x7d' then
      sliceInner reference
    else reference
  if r.toList.head? == some '#' then none
  else if "primitives.".toList.isPrefixOf r.toList then
    resolve_primitives_reference r primitive_color_map
  else if "1. color modes".toList.isPrefixOf r.toList then none
  else resolve_primitives_reference r primitive_color_map

/-- Walking a dot path through nested objects, as the `v.get(path)`
loop of `get_node_value` does; any missing key or non-object value
makes the Python loop raise, modelled as failure. -/
def digPath : JVal → List String → Option JVal
  | v, [] => some v
  | JVal.obj fields, p :: rest =>
    match List.lookup p fields with
    | some v => digPath v rest
    | none => none
  | _, _ :: _ => none

/-- Embeds `get_node_value` (lines 441-446): drop the first two dot segments
of the reference, follow the rest from the `1. color modes` root, and
read the target's `value` field.  Every failure mode of the Python
code here is an uncaught exception, modelled as `none`. -/
def get_node_value (json : List (String × JVal)) (nodeRef : String) :
    Option String :=
  let paths := ((splitOnChar '.' nodeRef.toList).map String.mk).drop 2
  match List.lookup "1. color modes" json with
  | none => none
  | some v0 =>
    match digPath v0 paths with
    | some (JVal.obj fields) =>
      match List.lookup "value" fields with
      | some (JVal.str s) => some s
      | _ => none
    | _ => none

/-! ## tokens.py: semantic color pass (lines 449-509) -/

/-- Handling of one semantic reference string (the body of the
reference branch in `traverse_semantic_colors`, lines 460-481): a
reference into the color-modes subtree is first dereferenced through
`get_node_value`, whose failure is an uncaught Python exception,
modelled as `Except.error`; otherwise the reference is resolved to a
primitive name and written into the mode bucket inferred from the
path, or silently dropped when unresolvable or mode-less. -/
def semanticRefStep (full_data : List (String × JVal)) (reference : String)
    (current_path : List String)
    (light_semantic dark_semantic : List (String × String))
    (primitive_color_map : List (String × String)) :
    Except Unit (List (String × String) × List (String × String)) :=
  let refOpt :=
    if "\x7b1. color modes".toList.isPrefixOf reference.toList then
      get_node_value full_data (sliceInner reference)
    else some reference
  match refOpt with
  | none => Except.error ()
  | some r =>
    match resolve_color_reference_to_name r primitive_color_map with
    | none => Except.ok (light_semantic, dark_semantic)
    | some primitive_color_name =>
      let xml_name := format_xml_name current_path
      let color_reference := "@color/" ++ primitive_color_name
      let path_str := pathStr current_path
      if containsStr path_str "light mode" then
        Except.ok (dinsert light_semantic xml_name color_reference, dark_semantic)
      else if containsStr path_str "dark mode" then
        Except.ok (light_semantic, dinsert dark_semantic xml_name color_reference)
      else
        Except.ok (light_semantic, dark_semantic)

mutual

/-- Embeds `traverse_semantic_colors`: depth-first walk of the color-modes
subtree.  A node with a string `value` field is treated as a
reference; other objects are recursed into.  The only way the Python
function can escape its loop abnormally is the uncaught exception out
of `get_node_value`, carried here in `Except`. -/
def traverse_semantic_colors :
    List (String × JVal) → List (String × JVal) → List String →
    List (String × String) → List (String × String) →
    List (String × String) →
    Except Unit (List (String × String) × List (String × String))
  | _, [], _, light_semantic, dark_semantic, _ =>
    Except.ok (light_semantic, dark_semantic)
  | full_data, (key, value) :: rest, path, light_semantic, dark_semantic,
      primitive_color_map =>
    match semanticEntry full_data key value path light_semantic dark_semantic
        primitive_color_map with
    | Except.error e => Except.error e
    | Except.ok step =>
      traverse_semantic_colors full_data rest path step.1 step.2
        primitive_color_map

/-- The loop body of `traverse_semantic_colors` for one key/value pair. -/
def semanticEntry (full_data : List (String × JVal)) (key : String)
    (value : JVal) (path : List String)
    (light_semantic dark_semantic : List (String × String))
    (primitive_color_map : List (String × String)) :
    Except Unit (List (String × String) × List (String × String)) :=
  match value with
  | JVal.obj fields =>
    match List.lookup "value" fields with
    | some (JVal.str reference) =>
      semanticRefStep full_data reference (path ++ [key]) light_semantic
        dark_semantic primitive_color_map
    | _ =>
      traverse_semantic_colors full_data fields (path ++ [key]) light_semantic
        dark_semantic primitive_color_map
  | _ => Except.ok (light_semantic, dark_semantic)

end

/-- Embeds `process_color_modes` (lines 488-509): find the first top-level
key whose lowercase text contains the color-modes marker; without one
the pass degrades to empty mappings, and a non-object value under the
key makes the Python `.items()` call raise. -/
def process_color_modes (data : List (String × JVal))
    (primitive_color_map : List (String × String)) :
    Except Unit (List (String × String) × List (String × String)) :=
  match data.find? (fun p => containsStr (pyLower p.1) "color modes") with
  | none => Except.ok ([], [])
  | some kv =>
    match kv.2 with
    | JVal.obj fields =>
      traverse_semantic_colors data fields [] [] [] primitive_color_map
    | _ => Except.error ()

/-! ## tokens.py: spacing passes (lines 87-172, 218-232, 312-322, 533-541) -/

/-- Embeds `format_spacing_name` (lines 148-172): attribute name plus parent
name, keeping only alphanumeric characters and, for the node, only the
text before the first space. -/
def format_spacing_name (name_parts : List String) : String :=
  match name_parts.reverse with
  | [] => "unknown"
  | [only] =>
    let node_name0 :=
      if only.toList.contains ' ' then
        String.mk ((splitOnChar ' ' only.toList).headD [])
      else only
    String.mk (node_name0.toList.filter asciiAlnum)
  | last_part :: parent_part :: _ =>
    let node_name0 :=
      if last_part.toList.contains ' ' then
        String.mk ((splitOnChar ' ' last_part.toList).headD [])
      else last_part
    let node_name := String.mk (node_name0.toList.filter asciiAlnum)
    let parent := String.mk (parent_part.toList.filter asciiAlnum)
    parent ++ "_" ++ node_name

mutual

/-- Embeds `traverse_spacing_dimensions` (lines 218-232): record every
dimension node's raw value under its spacing name; recurse into other
objects.  This walk cannot raise. -/
def traverse_spacing_dimensions :
    List (String × JVal) → List String → List (String × JVal) →
    List (String × JVal)
  | [], _, dimensions => dimensions
  | (key, value) :: rest, path, dimensions =>
    traverse_spacing_dimensions rest path
      (spacingEntry key value path dimensions)

/-- The loop body of `traverse_spacing_dimensions` for one pair. -/
def spacingEntry (key : String) (value : JVal) (path : List String)
    (dimensions : List (String × JVal)) : List (String × JVal) :=
  match value with
  | JVal.obj fields =>
    if is_dimension_node fields then
      match List.lookup "value" fields with
      | some dv => dinsert dimensions (format_spacing_name (path ++ [key])) dv
      | none => dimensions
    else traverse_spacing_dimensions fields (path ++ [key]) dimensions
  | _ => dimensions

end

/-- Embeds `process_spacing_dimensions` (lines 312-322), for a document whose
`primitives` section is already known to be an object: a missing
`spacing` key degrades to an empty mapping; a non-object `spacing`
value makes `.items()` raise. -/
def process_spacing_dimensions (primFields : List (String × JVal)) :
    Option (List (String × JVal)) :=
  match List.lookup "spacing" primFields with
  | none => some []
  | some (JVal.obj fields) =>
    some (traverse_spacing_dimensions fields ["spacing"] [])
  | some _ => none

/-! ## tokens.py: semantic spacing (lines 87-145, 533-541) -/

/-- First index of a substring (Python `s.find`). -/
def firstSubIdx (needle : List Char) : List Char → Option Nat
  | [] => if needle.isPrefixOf [] then some 0 else none
  | c :: t =>
    if needle.isPrefixOf (c :: t) then some 0
    else (firstSubIdx needle t).map (· + 1)

/-- Last index of a character (Python `s.rfind`). -/
def lastIdxOfChar (c : Char) : List Char → Option Nat
  | [] => none
  | x :: t =>
    match lastIdxOfChar c t with
    | some i => some (i + 1)
    | none => if x = c then some 0 else none

/-- Embeds `extract_content_between_spacing_and_bracket` (lines 87-145):
slice from the dot before the spacing marker up to the last opening
bracket, then turn the first dot after the marker into an underscore,
delete the remaining dots, and drop anything before the marker. -/
def extract_content_between_spacing_and_bracket (input : String) : String :=
  let l := input.toList
  match lastIdxOfChar '(' l with
  | none => ""
  | some last_bracket_pos =>
    match firstSubIdx "spacing".toList l with
    | none => ""
    | some spacing_pos =>
      match lastIdxOfChar '.' (l.take spacing_pos) with
      | none => ""
      | some di =>
        let start := di + 1
        let content := pyStrip ((l.drop start).take (last_bracket_pos - start))
        match firstSubIdx "spacing".toList content with
        | none => String.mk content
        | some si =>
          let after := content.drop (si + 7)
          if after.isEmpty then String.mk content
          else
            match firstSubIdx ['.'] after with
            | none => String.mk ("spacing".toList ++ after)
            | some fd =>
              let beforeDot := after.take fd
              let afterDot := (after.drop (fd + 1)).filter (fun c => !(c == '.'))
              String.mk ("spacing".toList ++ beforeDot ++ ['_'] ++ afterDot)

/-- The loop of `process_semantic_spacing` (lines 536-539): every
entry must be an object with a string `value`, otherwise the Python
subscripting raises. -/
def semSpacingLoop :
    List (String × JVal) → List (String × String) →
    Option (List (String × String))
  | [], acc => some acc
  | (k, v) :: rest, acc =>
    match v with
    | JVal.obj fields =>
      match List.lookup "value" fields with
      | some (JVal.str s) =>
        let reference_name :=
          extract_content_between_spacing_and_bracket (sliceInner s)
        let spacing_name :=
          String.mk (k.toList.map (fun c => if c = '-' then '_' else c))
        semSpacingLoop rest (dinsert acc spacing_name reference_name)
      | _ => none
    | _ => none

/-- Embeds `process_semantic_spacing` (lines 533-541): the `3. spacing` root
is accessed unconditionally, so its absence is an uncaught `KeyError`,
modelled as `none`. -/
def process_semantic_spacing (data : List (String × JVal)) :
    Option (List (String × String)) :=
  match List.lookup "3. spacing" data with
  | none => none
  | some (JVal.obj fields) => semSpacingLoop fields []
  | some _ => none

/-! ## tokens.py: gradients (lines 597-700) -/

/-- Python `s.split(sep)` for a multi-character separator, fuelled by
the input length (each step consumes at least one character). -/
def splitOnSub (sep : List Char) : Nat → List Char → List (List Char)
  | 0, l => [l]
  | fuel + 1, l =>
    if sep.isPrefixOf l then [] :: splitOnSub sep fuel (l.drop sep.length)
    else
      match l with
      | [] => [[]]
      | c :: cs =>
        match splitOnSub sep fuel cs with
        | [] => [[c]]
        | h :: t => (c :: h) :: t

/-- Python `s.split(sep)` on strings. -/
def pySplitSub (sep s : String) : List String :=
  (splitOnSub sep.toList s.toList.length s.toList).map String.mk

/-- The general cleanup branch of `format_gradient_name`
(lines 614-622): underscore special characters, collapse and strip. -/
def gradClean (s : String) : String :=
  String.mk (pyStripChar '_' (collapseUnd (s.toList.map underscoreClean)))

/-- Embeds `format_gradient_name` (lines 602-622): the textual
start-to-end-with-degrees pattern is recognised first, anything else
is cleaned and concatenated. -/
def format_gradient_name (parent_name node_name : String) : String :=
  if containsStr node_name " -> " && node_name.toList.contains '(' then
    let parts := pySplitSub " -> " node_name
    if parts.length = 2 then
      let start_num := String.mk (pyStrip (parts.headD "").toList)
      let end_part := String.mk (pyStrip
        ((splitOnChar '(' ((parts.drop 1).headD "").toList).headD []))
      parent_name ++ "_" ++ start_num ++ "_" ++ end_part
    else gradClean parent_name ++ "_" ++ gradClean node_name
  else gradClean parent_name ++ "_" ++ gradClean node_name

mutual

/-- Embeds `traverse_gradient_nodes` (lines 652-686).  A gradient node whose
`value` is not an object, or whose `stops` cannot be indexed the way
the source indexes them, makes the Python code raise, modelled as
`none`; a stop list shorter than two entries skips the node. -/
def traverse_gradient_nodes :
    List (String × JVal) → List String →
    List (String × (JVal × JVal × JVal)) →
    Option (List (String × (JVal × JVal × JVal)))
  | [], _, gradients => some gradients
  | (key, value) :: rest, path, gradients =>
    match gradientEntry key value path gradients with
    | none => none
    | some g => traverse_gradient_nodes rest path g

/-- The loop body of `traverse_gradient_nodes` for one key/value pair. -/
def gradientEntry (key : String) (value : JVal) (path : List String)
    (gradients : List (String × (JVal × JVal × JVal))) :
    Option (List (String × (JVal × JVal × JVal))) :=
  match value with
  | JVal.obj fields =>
    if is_gradient_node fields then
      match List.lookup "value" fields with
      | some (JVal.obj gfields) =>
        let rotation := (List.lookup "rotation" gfields).getD (JVal.num 0)
        match List.lookup "stops" gfields with
        | none => some gradients
        | some (JVal.arr stops) =>
          match stops with
          | (JVal.obj f0) :: (JVal.obj f1) :: _ =>
            match List.lookup "color" f0, List.lookup "color" f1 with
            | some start_color, some end_color =>
              let xml_name :=
                match path.getLast? with
                | some parent => format_gradient_name parent key
                | none => format_gradient_name "gradient" key
              some (dinsert gradients xml_name (rotation, start_color, end_color))
            | _, _ => none
          | _ :: _ :: _ => none
          | _ => some gradients
        | some (JVal.str s) =>
          if s.toList.length ≥ 2 then none else some gradients
        | some (JVal.obj f) =>
          if f.length ≥ 2 then none else some gradients
        | some _ => none
      | some _ => none
      | none => some gradients
    else traverse_gradient_nodes fields (path ++ [key]) gradients
  | _ => some gradients

end

/-- Embeds `process_gradients` (lines 689-700): a missing `gradient` root
degrades to an empty mapping. -/
def process_gradients (data : List (String × JVal)) :
    Option (List (String × (JVal × JVal × JVal))) :=
  match List.lookup "gradient" data with
  | none => some []
  | some (JVal.obj fields) => traverse_gradient_nodes fields [] []
  | some _ => none

/-! ## tokens.py: `main` (lines 544-594) -/

/-- The six mappings computed by one run before serialization. -/
structure Outputs where
  light_colors : List (String × String)
  dark_colors : List (String × String)
  light_semantic : List (String × String)
  dark_semantic : List (String × String)
  dimensions : List (String × JVal)
  semantic_dimens : List (String × String)
  gradients : List (String × (JVal × JVal × JVal))

/-- Embeds `main` (lines 544-594), up to the hand-off to the serializer: all
mappings are computed before any file is written, so a run either
produces all outputs (`some`) or aborts with none of them (`none`).
`none` covers both the early `return` on a missing `primitives` root
and every uncaught exception along the pipeline.  (Lean reserves the
name `main` for program entry points, hence the suffix.) -/
def main_run (data : List (String × JVal)) : Option Outputs :=
  match List.lookup "primitives" data with
  | none => none
  | some prim =>
    match prim with
    | JVal.obj primFields =>
      let colors := traverse_primitive_colors primFields [] [] []
      let primitive_color_map := mergeMaps colors.1 colors.2
      match process_color_modes data primitive_color_map with
      | Except.error _ => none
      | Except.ok semantic =>
        match process_spacing_dimensions primFields with
        | none => none
        | some dimensions =>
          match process_semantic_spacing data with
          | none => none
          | some semantic_dimens =>
            match process_gradients data with
            | none => none
            | some gradients =>
              some
                { light_colors := colors.1
                  dark_colors := colors.2
                  light_semantic := semantic.1
                  dark_semantic := semantic.2
                  dimensions := dimensions
                  semantic_dimens := semantic_dimens
                  gradients := gradients }
    | _ => none

/-! ## Auxiliary predicates and concrete documents used by the
verification -/

/-- The entry invariant of the semantic mappings: every recorded value
is a reference expression naming a key of the primitive map. -/
def semInv (pmap m : List (String × String)) : Prop :=
  ∀ p ∈ m, ∃ n, p.2 = "@color/" ++ n ∧ dcontains pmap n = true

mutual

/-- No reference-node string anywhere in the list (along the shape of
the semantic walk) starts with the color-modes prefix. -/
def noCMList : List (String × JVal) → Bool
  | [] => true
  | (_, v) :: rest => noCMVal v && noCMList rest

/-- No reference-node string inside the value starts with the
color-modes prefix. -/
def noCMVal : JVal → Bool
  | JVal.obj fields =>
    (match List.lookup "value" fields with
     | some (JVal.str r) => !("\x7b1. color modes".toList.isPrefixOf r.toList)
     | _ => noCMList fields)
  | _ => true

end

/-- Hexadecimal digits. -/
def hexDigit (c : Char) : Bool :=
  c ∈ "0123456789abcdefABCDEF".toList

/-- Modelled from the spec: a 9-character color literal of the exact
form given there — a hash sign followed by eight hexadecimal
digits (the `RRGGBBAA` shape).  `tokens.py` has no such predicate; it
dispatches on length alone. -/
def isRGBAHexForm (s : String) : Bool :=
  match s.toList with
  | c :: rest => c == '#' && rest.length == 8 && rest.all hexDigit
  | [] => false

/-- Lowercase letters and digits: the segment alphabet under which the
name normalizer is the identity on segments. -/
def lowerDigit (c : Char) : Bool :=
  c ∈ "abcdefghijklmnopqrstuvwxyz0123456789".toList

/-- The output alphabet of the generic name normalizer. -/
def allowedChar (c : Char) : Bool :=
  c ∈ "abcdefghijklmnopqrstuvwxyz0123456789_".toList

/-- Letters, digits or underscore: the intermediate alphabet after the
underscore-replacing substitution. -/
def alnumU (c : Char) : Bool :=
  asciiAlnum c || c == '_'

/-- A canonical path segment: nonempty and made of lowercase letters
and digits only. -/
def canonSeg (s : String) : Bool :=
  !(s == "") && s.toList.all lowerDigit

/-- A primitives subtree holding one dark-mode-only color token
(no gray in the path): input for claim C1. -/
def darkModeDoc : List (String × JVal) :=
  [("dark mode", JVal.obj [("brand", JVal.obj [("600", JVal.obj
    [("type", JVal.str "color"), ("value", JVal.str "#112233")])])])]

/-- A document whose only primitive is a gray dark-mode-only color and
whose only semantic token, in the light bucket, references it: input
for claim C2's counterexample. -/
def crossModeDoc : List (String × JVal) :=
  [("primitives", JVal.obj
     [("gray", JVal.obj [("dark mode", JVal.obj [("slate", JVal.obj
       [("600", JVal.obj
         [("type", JVal.str "color"), ("value", JVal.str "#101010")])])])])]),
   ("1. color modes", JVal.obj
     [("light mode", JVal.obj [("button", JVal.obj
       [("value", JVal.str "\x7bprimitives.slate.600\x7d")])])]),
   ("3. spacing", JVal.obj [])]

/-- A well-formed document with one mode-agnostic primitive and one
light-mode semantic token: input for claim C2's witness. -/
def roundTripDoc : List (String × JVal) :=
  [("primitives", JVal.obj
     [("brand", JVal.obj [("600", JVal.obj
       [("type", JVal.str "color"), ("value", JVal.str "#112233")])])]),
   ("1. color modes", JVal.obj
     [("light mode", JVal.obj [("button", JVal.obj
       [("value", JVal.str "\x7bprimitives.brand.600\x7d")])])]),
   ("3. spacing", JVal.obj [])]

/-- A root object whose single semantic token references a color-modes
path that does not exist: input for claim C3's counterexample. -/
def cmMissingTargetDoc : List (String × JVal) :=
  [("1. color modes", JVal.obj [("light mode", JVal.obj [("x", JVal.obj
    [("value", JVal.str "\x7b1. color modes.light mode.missing\x7d")])])])]

/-- A semantic subtree with one unresolvable and one resolvable plain
reference: input for claim C3's drop-behaviour conjunct. -/
def dropDemoData : List (String × JVal) :=
  [("light mode", JVal.obj
    [("bad", JVal.obj [("value", JVal.str "\x7bprimitives.nothere.999\x7d")]),
     ("good", JVal.obj [("value", JVal.str "\x7bprimitives.brand.600\x7d")])])]

/-- A document with semantic, spacing and gradient content but no
`primitives` root: input for claim C4's counterexample. -/
def missingPrimitivesDoc : List (String × JVal) :=
  [("1. color modes", JVal.obj
     [("light mode", JVal.obj [("b", JVal.obj
       [("value", JVal.str "#112233")])])]),
   ("3. spacing", JVal.obj []),
   ("gradient", JVal.obj [])]

/-- A document missing the color-modes root and the gradient root but
complete otherwise: input for claim C4's amended theorem. -/
def gracefulDoc : List (String × JVal) :=
  [("primitives", JVal.obj
     [("brand", JVal.obj [("600", JVal.obj
       [("type", JVal.str "color"), ("value", JVal.str "#112233FF")])]),
      ("spacing", JVal.obj [("sm", JVal.obj
       [("type", JVal.str "dimension"), ("value", JVal.num 8)])])]),
   ("3. spacing", JVal.obj [("space-sm", JVal.obj
     [("value", JVal.str "\x7bprimitives.mode 1.spacing.sm (8px)\x7d")])])]

/-- A document with primitives but no `3. spacing` root: input for
claim C4's amended theorem. -/
def noSemSpacingDoc : List (String × JVal) :=
  [("primitives", JVal.obj
     [("brand", JVal.obj [("600", JVal.obj
       [("type", JVal.str "color"), ("value", JVal.str "#112233")])])])]

/-- The semantic node of the specification's scenario: path
`color / light mode / button / primary` holding a braced reference to
`primitives.colors.base.brand.600`: input for claim C5. -/
def buttonPrimaryData : List (String × JVal) :=
  [("color", JVal.obj [("light mode", JVal.obj [("button", JVal.obj
    [("primary", JVal.obj
      [("value", JVal.str "\x7bprimitives.colors.base.brand.600\x7d")])])])])]

/-- A primitive map holding only `brand_600`. -/
def brandMap : List (String × String) := [("brand_600", "#112233")]

/-- A primitive map holding only `bluedark_600`: input for claim C7. -/
def blueDarkMap : List (String × String) := [("bluedark_600", "#0A0A0A")]

/-! ## Helper lemmas -/

theorem mem_dinsert {β : Type} (m : List (String × β)) (k : String) (v : β)
    (p : String × β) (hp : p ∈ dinsert m k v) : p ∈ m ∨ p = (k, v) := by
  unfold dinsert at hp
  split at hp
  · rcases List.mem_map.mp hp with ⟨q, hq, hqe⟩
    by_cases h : q.1 = k
    · right; rw [if_pos h] at hqe; exact hqe.symm
    · left; rw [if_neg h] at hqe; exact hqe ▸ hq
  · rcases List.mem_append.mp hp with h | h
    · exact Or.inl h
    · right; simpa using h

theorem fallbackScan_mem (pmap : List (String × String)) (penult : String)
    (many : Bool) :
    ∀ parts n, fallbackScan pmap penult many parts = some n →
      dcontains pmap n = true := by
  intro parts
  induction parts with
  | nil => intro n h; simp [fallbackScan] at h
  | cons p rest ih =>
    intro n h
    simp only [fallbackScan] at h
    split at h
    · split at h
      · injection h with h'; subst h'; assumption
      · exact ih n h
    · exact ih n h

theorem resolve_primitives_reference_mem (reference : String)
    (pmap : List (String × String)) (n : String)
    (h : resolve_primitives_reference reference pmap = some n) :
    dcontains pmap n = true := by
  simp only [resolve_primitives_reference] at h
  split at h
  · split at h
    · injection h with h'; subst h'; assumption
    · split at h
      · split at h
        · injection h with h'; subst h'; assumption
        · split at h
          · injection h with h'; subst h'; assumption
          · exact fallbackScan_mem _ _ _ _ _ h
      · exact fallbackScan_mem _ _ _ _ _ h
  · exact fallbackScan_mem _ _ _ _ _ h

theorem resolve_color_reference_to_name_mem (reference : String)
    (pmap : List (String × String)) (n : String)
    (h : resolve_color_reference_to_name reference pmap = some n) :
    dcontains pmap n = true := by
  simp only [resolve_color_reference_to_name] at h
  split at h <;>
  · split at h
    · exact absurd h (by simp)
    · split at h
      · exact resolve_primitives_reference_mem _ _ _ h
      · split at h
        · exact absurd h (by simp)
        · exact resolve_primitives_reference_mem _ _ _ h

theorem semanticRefStep_inv (full_data : List (String × JVal))
    (reference : String) (current_path : List String)
    (ls ds pmap : List (String × String))
    (r : List (String × String) × List (String × String))
    (h : semanticRefStep full_data reference current_path ls ds pmap = Except.ok r)
    (hls : semInv pmap ls) (hds : semInv pmap ds) :
    semInv pmap r.1 ∧ semInv pmap r.2 := by
  simp only [semanticRefStep] at h
  split at h
  · exact absurd h (by simp)
  · split at h
    · injection h with h'; subst h'; exact ⟨hls, hds⟩
    · rename_i rr name hres
      split at h
      · injection h with h'; subst h'
        refine ⟨?_, hds⟩
        intro p hp
        rcases mem_dinsert _ _ _ _ hp with hm | he
        · exact hls p hm
        · subst he
          exact ⟨name, rfl, resolve_color_reference_to_name_mem _ _ _ hres⟩
      · split at h
        · injection h with h'; subst h'
          refine ⟨hls, ?_⟩
          intro p hp
          rcases mem_dinsert _ _ _ _ hp with hm | he
          · exact hds p hm
          · subst he
            exact ⟨name, rfl, resolve_color_reference_to_name_mem _ _ _ hres⟩
        · injection h with h'; subst h'; exact ⟨hls, hds⟩

theorem traverse_semantic_inv_all :
    (∀ (full data : List (String × JVal)) (path : List String)
        (ls ds pmap : List (String × String)),
      ∀ r, traverse_semantic_colors full data path ls ds pmap = Except.ok r →
        semInv pmap ls → semInv pmap ds →
        semInv pmap r.1 ∧ semInv pmap r.2) ∧
    (∀ (full : List (String × JVal)) (key : String) (value : JVal)
        (path : List String) (ls ds pmap : List (String × String)),
      ∀ r, semanticEntry full key value path ls ds pmap = Except.ok r →
        semInv pmap ls → semInv pmap ds →
        semInv pmap r.1 ∧ semInv pmap r.2) := by
  refine traverse_semantic_colors.mutual_induct
    (fun full data path ls ds pmap =>
      ∀ r, traverse_semantic_colors full data path ls ds pmap = Except.ok r →
        semInv pmap ls → semInv pmap ds → semInv pmap r.1 ∧ semInv pmap r.2)
    (fun full key value path ls ds pmap =>
      ∀ r, semanticEntry full key value path ls ds pmap = Except.ok r →
        semInv pmap ls → semInv pmap ds → semInv pmap r.1 ∧ semInv pmap r.2)
    ?_ ?_ ?_ ?_ ?_ ?_
  · intro full key path ls ds pmap fields t hval r h hls hds
    simp only [semanticEntry] at h
    rw [hval] at h
    exact semanticRefStep_inv _ _ _ _ _ _ _ h hls hds
  · intro full key path ls ds pmap fields hnot ih r h hls hds
    simp only [semanticEntry] at h
    exact ih r h hls hds
  · intro t full key path ls ds pmap hnot r h hls hds
    simp only [semanticEntry] at h
    injection h with h'; subst h'; exact ⟨hls, hds⟩
  · intro full path ls ds pmap r h hls hds
    simp only [traverse_semantic_colors] at h
    injection h with h'; subst h'; exact ⟨hls, hds⟩
  · intro full key value rest path ls ds pmap e herr ih r h
    simp only [traverse_semantic_colors, herr] at h
    exact fun _ _ => Except.noConfusion h
  · intro full key value rest path ls ds pmap step hstep ihE ihL r h hls hds
    simp only [traverse_semantic_colors, hstep] at h
    rcases ihE step hstep hls hds with ⟨h1, h2⟩
    exact ihL r h h1 h2

theorem process_color_modes_inv (data : List (String × JVal))
    (pmap : List (String × String))
    (r : List (String × String) × List (String × String))
    (h : process_color_modes data pmap = Except.ok r) :
    semInv pmap r.1 ∧ semInv pmap r.2 := by
  simp only [process_color_modes] at h
  split at h
  · injection h with h'; subst h'
    exact ⟨fun p hp => absurd hp (List.not_mem_nil p),
           fun p hp => absurd hp (List.not_mem_nil p)⟩
  · split at h
    · exact traverse_semantic_inv_all.1 _ _ _ _ _ _ r h
        (fun p hp => absurd hp (List.not_mem_nil p))
        (fun p hp => absurd hp (List.not_mem_nil p))
    · exact absurd h (by simp)

theorem semanticRefStep_ok (full_data : List (String × JVal))
    (reference : String) (current_path : List String)
    (ls ds pmap : List (String × String))
    (h : "\x7b1. color modes".toList.isPrefixOf reference.toList = false) :
    (semanticRefStep full_data reference current_path ls ds pmap).isOk = true := by
  simp only [semanticRefStep, h]
  split
  · rename_i heq; simp at heq
  · split
    · rfl
    · split
      · rfl
      · split <;> rfl

theorem traverse_semantic_ok_all :
    (∀ (full data : List (String × JVal)) (path : List String)
        (ls ds pmap : List (String × String)),
      noCMList data = true →
      (traverse_semantic_colors full data path ls ds pmap).isOk = true) ∧
    (∀ (full : List (String × JVal)) (key : String) (value : JVal)
        (path : List String) (ls ds pmap : List (String × String)),
      noCMVal value = true →
      (semanticEntry full key value path ls ds pmap).isOk = true) := by
  refine traverse_semantic_colors.mutual_induct
    (fun full data path ls ds pmap =>
      noCMList data = true →
      (traverse_semantic_colors full data path ls ds pmap).isOk = true)
    (fun full key value path ls ds pmap =>
      noCMVal value = true →
      (semanticEntry full key value path ls ds pmap).isOk = true)
    ?_ ?_ ?_ ?_ ?_ ?_
  · intro full key path ls ds pmap fields t hval hnocm
    simp only [noCMVal, hval, Bool.not_eq_true'] at hnocm
    simp only [semanticEntry]
    rw [hval]
    exact semanticRefStep_ok _ _ _ _ _ _ hnocm
  · intro full key path ls ds pmap fields hnot ih hnocm
    simp only [semanticEntry]
    apply ih
    simp only [noCMVal] at hnocm
    exact hnocm
  · intro t full key path ls ds pmap hnot hnocm
    simp only [semanticEntry]
    rfl
  · intro full path ls ds pmap _
    simp only [traverse_semantic_colors]
    rfl
  · intro full key value rest path ls ds pmap e herr ih hnocm
    simp only [noCMList, Bool.and_eq_true] at hnocm
    have hok := ih hnocm.1
    rw [herr] at hok
    exact Bool.noConfusion hok
  · intro full key value rest path ls ds pmap step hstep ihE ihL hnocm
    simp only [noCMList, Bool.and_eq_true] at hnocm
    simp only [traverse_semantic_colors, hstep]
    exact ihL hnocm.2

theorem lowerDigit_props (c : Char) (h : lowerDigit c = true) :
    pySpace c = false ∧ c ≠ '(' ∧ asciiAlnum c = true ∧ c ≠ '_' ∧
      pyLowerChar c = c := by
  have h' : c ∈ "abcdefghijklmnopqrstuvwxyz0123456789".toList := by
    simpa [lowerDigit] using h
  fin_cases h' <;> exact ⟨rfl, by decide, rfl, by decide, rfl⟩

theorem dropWhile_eq_self_of_all {α : Type} {p : α → Bool} :
    ∀ {l : List α}, (∀ c ∈ l, p c = false) → l.dropWhile p = l := by
  intro l h
  cases l with
  | nil => rfl
  | cons c cs => simp [List.dropWhile, h c (List.mem_cons_self c cs)]

theorem parenHeadMatch_none (l : List Char)
    (h : ∀ c ∈ l, lowerDigit c = true) : parenHeadMatch l = none := by
  unfold parenHeadMatch
  rw [dropWhile_eq_self_of_all (fun c hc => (lowerDigit_props c (h c hc)).1)]
  cases l with
  | nil => rfl
  | cons c cs =>
    simp [(lowerDigit_props c (h c (List.mem_cons_self c cs))).2.1]

theorem scanRemove_paren_id :
    ∀ (fuel : Nat) (l : List Char), l.length ≤ fuel →
      (∀ c ∈ l, lowerDigit c = true) → scanRemove parenHeadMatch fuel l = l := by
  intro fuel
  induction fuel with
  | zero =>
    intro l hl _
    rw [List.eq_nil_of_length_eq_zero (Nat.le_zero.mp hl)]
    rfl
  | succ n ih =>
    intro l hl hc
    simp only [scanRemove, parenHeadMatch_none l hc]
    cases l with
    | nil => rfl
    | cons c cs =>
      show c :: scanRemove parenHeadMatch n cs = c :: cs
      rw [ih cs (Nat.le_of_succ_le_succ hl)
        (fun d hd => hc d (List.mem_cons_of_mem c hd))]

theorem stripParens_id (l : List Char) (h : ∀ c ∈ l, lowerDigit c = true) :
    stripParens l = l :=
  scanRemove_paren_id l.length l (Nat.le_refl _) h

theorem map_underscoreClean_id :
    ∀ (l : List Char), (∀ c ∈ l, lowerDigit c = true) →
      l.map underscoreClean = l := by
  intro l h
  induction l with
  | nil => rfl
  | cons c cs ih =>
    have hc := (lowerDigit_props c (h c (List.mem_cons_self c cs))).2.2.1
    simp only [List.map_cons, underscoreClean, hc, if_true,
      ih (fun d hd => h d (List.mem_cons_of_mem c hd))]

theorem collapseUnd_id : ∀ (l : List Char), (∀ c ∈ l, c ≠ '_') →
    collapseUnd l = l := by
  intro l
  induction l using collapseUnd.induct with
  | case1 => intro _; rfl
  | case2 c => intro _; rfl
  | case3 a b rest hab ih =>
    intro h
    have hab' : a = '_' ∧ b = '_' := by simpa using hab
    exact absurd hab'.1 (h a (List.mem_cons_self a _))
  | case4 a b rest hab ih =>
    intro h
    unfold collapseUnd
    rw [if_neg (by simpa using hab)]
    rw [ih (fun d hd => h d (List.mem_cons_of_mem a hd))]

theorem pyStripChar_id (l : List Char) (h : ∀ c ∈ l, c ≠ '_') :
    pyStripChar '_' l = l := by
  unfold pyStripChar
  have hb : ∀ c ∈ l, (c == '_') = false :=
    fun c hc => beq_eq_false_iff_ne.mpr (h c hc)
  rw [dropWhile_eq_self_of_all hb,
    dropWhile_eq_self_of_all (fun c hc => hb c (List.mem_reverse.mp hc)),
    List.reverse_reverse]

theorem map_pyLowerChar_id : ∀ (l : List Char),
    (∀ c ∈ l, lowerDigit c = true) → l.map pyLowerChar = l := by
  intro l h
  induction l with
  | nil => rfl
  | cons c cs ih =>
    simp only [List.map_cons,
      (lowerDigit_props c (h c (List.mem_cons_self c cs))).2.2.2.2,
      ih (fun d hd => h d (List.mem_cons_of_mem c hd))]

theorem cleanSeg_id (s : String) (h : canonSeg s = true) : cleanSeg s = s := by
  have hall : ∀ c ∈ s.toList, lowerDigit c = true := by
    have := (Bool.and_eq_true _ _).mp h
    simpa [List.all_eq_true] using this.2
  have hnu : ∀ c ∈ s.toList, c ≠ '_' :=
    fun c hc => (lowerDigit_props c (hall c hc)).2.2.2.1
  unfold cleanSeg
  rw [stripParens_id _ hall, map_underscoreClean_id _ hall,
    collapseUnd_id _ hnu, pyStripChar_id _ hnu, map_pyLowerChar_id _ hall]
  cases s
  rfl

theorem cleanedParts_id (parts : List String)
    (h : ∀ s ∈ parts, canonSeg s = true) : cleanedParts parts = parts := by
  unfold cleanedParts
  have hmap : parts.map cleanSeg = parts := by
    induction parts with
    | nil => rfl
    | cons s rest ih =>
      simp only [List.map_cons, cleanSeg_id s (h s (List.mem_cons_self s rest)),
        ih (fun t ht => h t (List.mem_cons_of_mem s ht))]
  rw [hmap]
  rw [List.filter_eq_self.mpr]
  intro s hs
  have := (Bool.and_eq_true _ _).mp (h s hs)
  exact this.1

theorem alnumU_underscoreClean (c : Char) : alnumU (underscoreClean c) = true := by
  unfold underscoreClean alnumU
  by_cases h : asciiAlnum c = true
  · simp [h]
  · simp [h]

theorem mem_collapseUnd : ∀ (l : List Char) (c : Char),
    c ∈ collapseUnd l → c ∈ l := by
  intro l
  induction l using collapseUnd.induct with
  | case1 => intro c hc; simp [collapseUnd] at hc
  | case2 d => intro c hc; simpa [collapseUnd] using hc
  | case3 a b rest hab ih =>
    intro c hc
    unfold collapseUnd at hc
    rw [if_pos hab] at hc
    exact List.mem_cons_of_mem a (ih c hc)
  | case4 a b rest hab ih =>
    intro c hc
    unfold collapseUnd at hc
    rw [if_neg hab] at hc
    rcases List.mem_cons.mp hc with h | h
    · exact h ▸ List.mem_cons_self a _
    · exact List.mem_cons_of_mem a (ih c h)

theorem mem_pyStripChar (u c : Char) (l : List Char)
    (hc : c ∈ pyStripChar u l) : c ∈ l := by
  unfold pyStripChar at hc
  have h1 := List.mem_reverse.mp hc
  have h2 := (List.dropWhile_sublist (· == u)).mem h1
  have h3 := List.mem_reverse.mp h2
  exact (List.dropWhile_sublist (· == u)).mem h3

theorem allowedChar_pyLowerChar (c : Char) (h : alnumU c = true) :
    allowedChar (pyLowerChar c) = true := by
  by_cases h1 : asciiAlnum c = true
  · have h' : c ∈
        "abcdefghijklmnopqrstuvwxyzABCDEFGHIJKLMNOPQRSTUVWXYZ0123456789".toList := by
      simpa [asciiAlnum] using h1
    fin_cases h' <;> decide
  · have h2 : c = '_' := by
      have hu : (c == '_') = true := by simpa [alnumU, h1] using h
      simpa using hu
    subst h2
    decide

theorem cleanSeg_allowed (s : String) :
    ∀ c ∈ (cleanSeg s).toList, allowedChar c = true := by
  intro c hc
  unfold cleanSeg at hc
  rcases List.mem_map.mp hc with ⟨b, hb, hbc⟩
  subst hbc
  apply allowedChar_pyLowerChar
  have hb2 := mem_collapseUnd _ _ (mem_pyStripChar _ _ _ hb)
  rcases List.mem_map.mp hb2 with ⟨a, _, hab⟩
  subst hab
  exact alnumU_underscoreClean a

theorem joinSep_chars : ∀ (parts : List String) (c : Char),
    c ∈ (joinSep "_" parts).toList →
    c = '_' ∨ ∃ s ∈ parts, c ∈ s.toList := by
  intro parts
  induction parts with
  | nil => intro c hc; simp [joinSep] at hc
  | cons x xs ih =>
    intro c hc
    cases xs with
    | nil =>
      exact Or.inr ⟨x, List.mem_cons_self x [], by simpa [joinSep] using hc⟩
    | cons y t =>
      have he : (joinSep "_" (x :: y :: t)).toList
          = x.toList ++ "_".toList ++ (joinSep "_" (y :: t)).toList := rfl
      rw [he] at hc
      rcases List.mem_append.mp hc with h | h
      · rcases List.mem_append.mp h with h | h
        · exact Or.inr ⟨x, List.mem_cons_self x _, h⟩
        · left; simpa using h
      · rcases ih c h with h | ⟨s, hs, hcs⟩
        · exact Or.inl h
        · exact Or.inr ⟨s, List.mem_cons_of_mem x hs, hcs⟩

theorem cleanedParts_mem (parts : List String) (p : String)
    (hp : p ∈ cleanedParts parts) : ∃ s, p = cleanSeg s := by
  unfold cleanedParts at hp
  rcases List.mem_map.mp (List.mem_filter.mp hp).1 with ⟨s, _, hs⟩
  exact ⟨s, hs.symm⟩

theorem mem_ifTail {p : Prop} [Decidable p] (l : List String) (s : String)
    (h : s ∈ (if p then l.tail else l)) : s ∈ l := by
  split at h
  · exact List.mem_of_mem_tail h
  · exact h

theorem finalPick_allowed (cp : List String)
    (hmem : ∀ s ∈ cp, ∀ c ∈ s.toList, allowedChar c = true) :
    ∀ c ∈ ((match cp.reverse with
      | last :: parent :: _ =>
        if pyIsDigitStr last then parent ++ "_" ++ last else last
      | _ => joinSep "_" cp) : String).toList, allowedChar c = true := by
  intro c hc
  cases hr : cp.reverse with
  | nil =>
    rw [hr] at hc
    rcases joinSep_chars cp c hc with h | ⟨s, hs, hcs⟩
    · subst h; decide
    · exact hmem s hs c hcs
  | cons last rest =>
    have hlast : last ∈ cp := List.mem_reverse.mp (hr ▸ List.mem_cons_self _ _)
    cases rest with
    | nil =>
      rw [hr] at hc
      rcases joinSep_chars cp c hc with h | ⟨s, hs, hcs⟩
      · subst h; decide
      · exact hmem s hs c hcs
    | cons parent r2 =>
      have hparent : parent ∈ cp :=
        List.mem_reverse.mp (hr ▸ List.mem_cons_of_mem _ (List.mem_cons_self _ _))
      rw [hr] at hc
      have hred : (match last :: parent :: r2 with
          | last :: parent :: _ =>
            if pyIsDigitStr last then parent ++ "_" ++ last else last
          | _ => joinSep "_" cp)
          = if pyIsDigitStr last then parent ++ "_" ++ last else last := rfl
      rw [hred] at hc
      by_cases hd : pyIsDigitStr last = true
      · rw [if_pos hd] at hc
        have he : (parent ++ "_" ++ last).toList
            = parent.toList ++ "_".toList ++ last.toList := rfl
        rw [he] at hc
        rcases List.mem_append.mp hc with h | h
        · rcases List.mem_append.mp h with h | h
          · exact hmem parent hparent c h
          · have : c = '_' := by simpa using h
            subst this; decide
        · exact hmem last hlast c h
      · rw [if_neg hd] at hc
        exact hmem last hlast c hc

theorem format_xml_name_allowed (parts : List String) :
    ∀ c ∈ (format_xml_name parts).toList, allowedChar c = true := by
  intro c hc
  have base : ∀ s ∈ cleanedParts parts, ∀ d ∈ s.toList, allowedChar d = true := by
    intro s hs d hd
    rcases cleanedParts_mem parts s hs with ⟨t, rfl⟩
    exact cleanSeg_allowed t d hd
  simp only [format_xml_name] at hc
  exact finalPick_allowed _
    (fun s hs => base s
      (mem_ifTail _ _ (mem_ifTail _ _ (mem_ifTail _ _ (mem_ifTail _ _ hs)))))
    c hc

theorem cleanedParts_nil (parts : List String)
    (h : ∀ s ∈ parts, cleanSeg s = "") : cleanedParts parts = [] := by
  unfold cleanedParts
  induction parts with
  | nil => rfl
  | cons x xs ih =>
    simp only [List.map_cons, List.filter,
      h x (List.mem_cons_self x xs)]
    exact ih (fun s hs => h s (List.mem_cons_of_mem x hs))

theorem format_xml_name_empty (parts : List String)
    (h : ∀ s ∈ parts, cleanSeg s = "") : format_xml_name parts = "" := by
  simp only [format_xml_name, cleanedParts_nil parts h]
  rfl

/-! ## The claims -/

/-- C1: the claim says a primitive color token whose path text contains
the dark-mode marker and not the light-mode marker goes into the dark
bucket only.  The code disagrees: `should_include_in_light` is the
tautology (light in s) or (light not in s), so the dark-only token
`dark mode / brand / 600` is written into the light bucket as well as
the dark one.  This theorem evaluates the code at the failing input and
exhibits the tautology. -/
theorem c1_dark_mode_token_in_both_buckets :
    List.lookup "brand_600" (traverse_primitive_colors darkModeDoc [] [] []).1
      = some "#112233" ∧
    List.lookup "brand_600" (traverse_primitive_colors darkModeDoc [] [] []).2
      = some "#112233" ∧
    ∀ s : String, should_include_in_light s = true := by
  refine ⟨rfl, rfl, ?_⟩
  intro s
  unfold should_include_in_light
  exact Bool.or_not_self _

/-- C2 (counterexample): a run on `crossModeDoc` emits the
light-semantic entry `button -> @color/slate_600` although `slate_600`
is not a key of the light primitive mapping of the same run (it is a
gray dark-mode-only primitive), so the mode-matched round-trip claimed
does not hold. -/
theorem c2_light_semantic_ref_missing_from_light_primitives :
    (main_run crossModeDoc).map (fun o =>
      (List.lookup "button" o.light_semantic,
       List.lookup "slate_600" o.light_colors))
    = some (some "@color/slate_600", none) := rfl

/-- C2 (amended): every entry of either semantic mapping produced by a
successful run references a key of the merged (light-and-dark)
primitive mapping of the same run; membership in the same-mode
primitive mapping is not guaranteed. -/
theorem c2_semantic_refs_hit_merged_primitive_map
    (data : List (String × JVal)) (out : Outputs)
    (h : main_run data = some out) :
    semInv (mergeMaps out.light_colors out.dark_colors) out.light_semantic ∧
    semInv (mergeMaps out.light_colors out.dark_colors) out.dark_semantic := by
  simp only [main_run] at h
  split at h
  · exact absurd h (by simp)
  · split at h
    · rename_i prim primFields
      split at h
      · exact absurd h (by simp)
      · rename_i semantic hsem
        split at h
        · exact absurd h (by simp)
        · split at h
          · exact absurd h (by simp)
          · split at h
            · exact absurd h (by simp)
            · injection h with h'
              subst h'
              exact process_color_modes_inv _ _ _ hsem
    · exact absurd h (by simp)

/-- C2 (witness): the amended theorem applied to the concrete run on
`roundTripDoc`. -/
theorem c2_semantic_refs_hit_merged_primitive_map_witness :
    semInv (mergeMaps [("brand_600", "#112233")] [("brand_600", "#112233")])
      [("button", "@color/brand_600")] :=
  (c2_semantic_refs_hit_merged_primitive_map roundTripDoc
    ⟨[("brand_600", "#112233")], [("brand_600", "#112233")],
     [("button", "@color/brand_600")], [], [], [], []⟩ rfl).1

/-- C3 (counterexample): a semantic token referencing a color-modes
path that does not exist makes the engine raise (an uncaught exception
out of `get_node_value`), not drop the token: the semantic pass aborts
with an error instead of producing mappings. -/
theorem c3_color_modes_missing_target_raises :
    process_color_modes cmMissingTargetDoc [] = Except.error () := rfl

/-- C3 (amended): as long as no semantic token references the
color-modes subtree, the walk never raises — unresolvable references
are dropped with a diagnostic and the remaining tokens are processed,
as the concrete run with one unresolvable and one resolvable token
shows; only a color-modes reference with a missing target aborts. -/
theorem c3_no_raise_without_color_modes_refs :
    (∀ (full data : List (String × JVal)) (path : List String)
        (ls ds pmap : List (String × String)),
      noCMList data = true →
      (traverse_semantic_colors full data path ls ds pmap).isOk = true) ∧
    traverse_semantic_colors [] dropDemoData [] [] [] brandMap
      = Except.ok ([("good", "@color/brand_600")], []) :=
  ⟨traverse_semantic_ok_all.1, rfl⟩

/-- C3 (witness): the amended theorem applied to the concrete
`dropDemoData` subtree. -/
theorem c3_no_raise_without_color_modes_refs_witness :
    noCMList dropDemoData = true ∧
    (traverse_semantic_colors [] dropDemoData [] [] [] brandMap).isOk = true :=
  ⟨rfl, c3_no_raise_without_color_modes_refs.1 [] dropDemoData [] [] [] brandMap rfl⟩

/-- C4 (counterexample): a document with semantic, spacing and
gradient content but no `primitives` root produces no outputs at all —
`main` returns before writing anything — contradicting the claim that
only the dependent sub-pass is affected. -/
theorem c4_missing_primitives_aborts_run :
    main_run missingPrimitivesDoc = none := rfl

/-- C4 (amended): a missing color-modes root or gradient root is
contained to its sub-pass, which yields empty mappings while the other
outputs are produced; but a missing `primitives` root or a missing
`3. spacing` root aborts the run with no outputs at all. -/
theorem c4_missing_color_modes_degrades_gracefully :
    ((main_run gracefulDoc).map (fun o =>
       (o.light_colors, o.light_semantic, o.dark_semantic, o.gradients,
        o.dimensions, o.semantic_dimens))
      = some ([("brand_600", "#112233")], [], [], [],
              [("spacing_sm", JVal.num 8)], [("space_sm", "spacing_sm")])) ∧
    main_run noSemSpacingDoc = none := ⟨rfl, rfl⟩

/-- C5 (counterexample): the walk on the scenario node succeeds, but
neither semantic bucket contains a `button_primary` key — the generic
normalizer keeps only the deepest path segment. -/
theorem c5_no_button_primary_key :
    (traverse_semantic_colors [] buttonPrimaryData [] [] [] brandMap).toOption.map
      (fun r => (List.lookup "button_primary" r.1,
                 List.lookup "button_primary" r.2))
    = some (none, none) := rfl

/-- C5 (amended): the scenario node emits `primary -> @color/brand_600`
(the code's reference prefix) into the light-semantic mapping only,
the dark-semantic mapping staying empty; the canonical name is the
deepest segment `primary`, not `button_primary`. -/
theorem c5_emits_primary_into_light_only :
    traverse_semantic_colors [] buttonPrimaryData [] [] [] brandMap
      = Except.ok ([("primary", "@color/brand_600")], []) := rfl

/-- C6 (counterexample): the stated rule fails on raw paths — the path
`colors / 600` has two segments and a purely numeric last segment, yet
the normalizer returns `600`, not `colors_600`, because the leading
`colors` segment is stripped before the rule applies. -/
theorem c6_prefix_stripping_breaks_raw_rule :
    format_xml_name ["colors", "600"] = "600" ∧
    (("600" == "colors_600") = false) := ⟨rfl, rfl⟩

/-- C6 (amended): the two-segment rule holds for the cleaned,
prefix-stripped segment list; in particular, for paths whose segments
are already canonical (nonempty, lowercase letters and digits) and
whose first segment is none of the stripped prefixes, the normalizer
returns second-to-last underscore last when the last segment is purely
numeric, the last segment alone otherwise, the single segment for a
one-segment path, and the empty string for an empty path. -/
theorem c6_normalizer_on_canonical_segments (parts : List String)
    (hcanon : ∀ s ∈ parts, canonSeg s = true)
    (hhead : parts.head? ≠ some "colors" ∧ parts.head? ≠ some "base" ∧
             parts.head? ≠ some "component") :
    format_xml_name parts =
      match parts.reverse with
      | last :: parent :: _ =>
        if pyIsDigitStr last then parent ++ "_" ++ last else last
      | [last] => last
      | [] => "" := by
  have e1 : (parts.head? == some "colors") = false :=
    beq_eq_false_iff_ne.mpr hhead.1
  have e2 : (parts.head? == some "base") = false :=
    beq_eq_false_iff_ne.mpr hhead.2.1
  have e3 : (parts.head? == some "component") = false :=
    beq_eq_false_iff_ne.mpr hhead.2.2
  simp only [format_xml_name, cleanedParts_id parts hcanon, e1, e2, e3,
    Bool.and_false, Bool.false_eq_true, if_false]
  cases hr : parts.reverse with
  | nil =>
    have hp : parts = [] := by simpa using congrArg List.reverse hr
    simp [hp, joinSep]
  | cons last rest =>
    cases rest with
    | nil =>
      have hp : parts = [last] := by simpa using congrArg List.reverse hr
      simp [hp, joinSep]
    | cons parent rest2 => rfl

/-- C6 (witness): the amended theorem applied to the canonical path
`brand / 600`. -/
theorem c6_normalizer_on_canonical_segments_witness :
    format_xml_name ["brand", "600"] = "brand_600" := by
  rw [c6_normalizer_on_canonical_segments ["brand", "600"] (by decide)
    (by decide)]
  rfl

/-- C7 (counterexample): for the reference with the two-word family
inside one dot segment, the inner space becomes an underscore, leaving
only two segments, so strategy 3 is never reached: resolution fails
entirely instead of returning `bluedark_600`. -/
theorem c7_space_joined_family_fails :
    resolve_color_reference_to_name "\x7bprimitives.blue dark.600\x7d"
      blueDarkMap = none := rfl

/-- C7 (amended): strategy 3 (third-to-last and second-to-last
concatenated without separator) applies when the family words are
separate dot segments: with `bluedark_600` present and neither
`dark_600` nor `blue_dark_600` in the map, the dot-separated reference
resolves to `bluedark_600`. -/
theorem c7_dot_separated_family_strategy3 :
    resolve_color_reference_to_name "\x7bprimitives.blue.dark.600\x7d"
      blueDarkMap = some "bluedark_600" := rfl

/-- C8 (counterexample): the nine-character string `123456789` is not
of the hash-plus-eight-hex-digits form, yet the alpha-stripping step
truncates it to its first seven characters instead of passing it
through unchanged — the code dispatches on length alone. -/
theorem c8_nine_char_nonliteral_truncated :
    extract_color_value "123456789" = "1234567" ∧
    isRGBAHexForm "123456789" = false := ⟨rfl, rfl⟩

/-- C8 (amended): every nine-character value — in particular every
literal of the spec's hash-plus-eight-hex form — is truncated to its
first seven characters, and every value whose length differs from nine
passes through unchanged. -/
theorem c8_alpha_strip_by_length :
    (∀ s : String, isRGBAHexForm s = true →
       extract_color_value s = String.mk (s.toList.take 7)) ∧
    (∀ s : String, s.toList.length ≠ 9 → extract_color_value s = s) := by
  constructor
  · intro s hs
    have h9 : s.toList.length = 9 := by
      unfold isRGBAHexForm at hs
      cases hl : s.toList with
      | nil => rw [hl] at hs; simp at hs
      | cons c rest =>
        have hs' : (c == '#' && rest.length == 8 && rest.all hexDigit) = true := by
          rw [hl] at hs; exact hs
        have h8 : rest.length = 8 := by
          simpa using ((Bool.and_eq_true _ _).mp
            ((Bool.and_eq_true _ _).mp hs').1).2
        simp [h8]
    unfold extract_color_value
    rw [if_pos h9]
  · intro s hs
    unfold extract_color_value
    rw [if_neg hs]

/-- C8 (witness): the amended theorem applied to the literal
`#112233FF` (truncated to `#112233`) and to the short literal `#12`
(unchanged). -/
theorem c8_alpha_strip_by_length_witness :
    extract_color_value "#112233FF" = "#112233" ∧
    extract_color_value "#12" = "#12" := by
  constructor
  · rw [c8_alpha_strip_by_length.1 "#112233FF" rfl]
    rfl
  · exact c8_alpha_strip_by_length.2 "#12" (by decide)

/-- C9: the name resolver never fabricates a name — whenever it
returns a name for a reference, that name is a key of the supplied
primitive map, because every return site is guarded by a map-membership
test. -/
theorem c9_resolver_returns_known_key :
    ∀ (reference : String) (pmap : List (String × String)) (n : String),
      resolve_color_reference_to_name reference pmap = some n →
      dcontains pmap n = true :=
  fun reference pmap n h => resolve_color_reference_to_name_mem reference pmap n h

/-- C9 (witness): the theorem applied to a concrete resolution against
the one-entry map `brandMap`. -/
theorem c9_resolver_returns_known_key_witness :
    resolve_color_reference_to_name "\x7bprimitives.brand.600\x7d" brandMap
      = some "brand_600" ∧
    dcontains brandMap "brand_600" = true :=
  ⟨rfl, c9_resolver_returns_known_key "\x7bprimitives.brand.600\x7d" brandMap
    "brand_600" rfl⟩

/-- C10: the generic name normalizer emits only lowercase letters,
digits and underscores, and a path all of whose segments clean to
nothing yields the empty string. -/
theorem c10_normalizer_output_alphabet (parts : List String) :
    (∀ c ∈ (format_xml_name parts).toList, allowedChar c = true) ∧
    ((∀ s ∈ parts, cleanSeg s = "") → format_xml_name parts = "") :=
  ⟨format_xml_name_allowed parts, format_xml_name_empty parts⟩

/-- C10 (witness): the theorem applied to a path of segments made only
of parenthesized text and punctuation. -/
theorem c10_normalizer_output_alphabet_witness :
    (∀ s ∈ ["(a)", "--"], cleanSeg s = "") ∧
    format_xml_name ["(a)", "--"] = "" :=
  ⟨by decide, (c10_normalizer_output_alphabet ["(a)", "--"]).2 (by decide)⟩
